import Mathlib

/-!
Shallow embedding of `src/dataprep/connector/throttler.py`.

The file models the two classes of the module:

* `Throttler` — the rate window.  Python fields `_req_per_window : int`,
  `_window : float`, `_retry_interval : float`, `_backoff_n : int`,
  `_task_logs : Deque[float]`, `_running_tasks : Set[UUID]`.
  Integers become `ℤ`/`ℕ`, clock values become `ℚ` (exact time arithmetic),
  UUIDs become `ℕ` (only identity matters), the deque becomes a `List ℚ`
  (front of the deque = head of the list), the set becomes a `Finset ℕ`.
  Methods that read `time.time()` take the clock value `now` as an
  explicit argument.  `finish` calls `Set.remove`, which raises `KeyError`
  when the element is absent, so it is embedded as an `Option`-returning
  function (`none` = the raised exception; no state is produced).

* `OrderedThrottleSession` — per-stream ordered gate state: the set
  `seqs : Set[int]` of claimed sequence numbers becomes a `Finset ℕ`.
  `next_seq` is the bounded linear scan of the Python code, embedded with
  the loop bound `max(seqs) + 2` as fuel (`scanFree`); the `for` loop
  falling through (the `raise RuntimeError("Unreachable")` branch) is the
  `none` result.  The `while` condition of `acquire` is embedded as the
  (negated) admission test `admissionTest`, and the poll loop itself as
  `acquireWait`, parameterised by the list of clock readings seen by the
  `flush()` calls that the loop body performs after each sleep.
-/

structure Throttler where
  _req_per_window : ℤ
  _window : ℚ
  _retry_interval : ℚ
  _backoff_n : ℕ
  _task_logs : List ℚ
  _running_tasks : Finset ℕ
deriving DecidableEq

/-- `Throttler.__init__(req_per_window, window=1.0, retry_interval=0.01)`:
stores the three parameters unchanged, starts with an empty task log and
an empty running set (`_backoff_n` has class default `0`).  The Python
constructor performs no validation and has no failure path, so the
embedding is a total function. -/
def Throttler.init (req_per_window : ℤ) (window : ℚ) (retry_interval : ℚ) : Throttler :=
  { _req_per_window := req_per_window
    _window := window
    _retry_interval := retry_interval
    _backoff_n := 0
    _task_logs := []
    _running_tasks := ∅ }

/-- The loop of `Throttler.flush`: pop entries from the front while
`now - t > window`, stopping at the first entry inside the window. -/
def flushLog (window now : ℚ) : List ℚ → List ℚ
  | [] => []
  | t :: rest => if now - t > window then flushLog window now rest else t :: rest

/-- `Throttler.flush()` with the `time.time()` reading passed as `now`. -/
def Throttler.flush (th : Throttler) (now : ℚ) : Throttler :=
  { th with _task_logs := flushLog th._window now th._task_logs }

/-- `Throttler.ntasks_in_window()`: `len(self._task_logs) + len(self._running_tasks)`.
Note that it does not prune the log. -/
def Throttler.ntasks_in_window (th : Throttler) : ℕ :=
  th._task_logs.length + th._running_tasks.card

/-- `Throttler.running(task_id)`: add a running task. -/
def Throttler.running (th : Throttler) (task_id : ℕ) : Throttler :=
  { th with _running_tasks := insert task_id th._running_tasks }

/-- `Throttler.finish(task_id, cancel)`: `self._running_tasks.remove(task_id)`
(raising `KeyError`, i.e. `none`, when absent), then, if not cancelled,
append the current time to the task log. -/
def Throttler.finish (th : Throttler) (now : ℚ) (task_id : ℕ) (cancel : Bool) :
    Option Throttler :=
  if task_id ∈ th._running_tasks then
    some { th with
            _running_tasks := th._running_tasks.erase task_id
            _task_logs := if cancel then th._task_logs else th._task_logs ++ [now] }
  else
    none

/-- The `req_per_window` property: `max(self._req_per_window - 2 ** self._backoff_n, 1)`. -/
def Throttler.req_per_window (th : Throttler) : ℤ :=
  max (th._req_per_window - 2 ^ th._backoff_n) 1

/-- `Throttler.backoff()`: increment `_backoff_n`. -/
def Throttler.backoff (th : Throttler) : Throttler :=
  { th with _backoff_n := th._backoff_n + 1 }

/-- The `for i in range(bound)` scan of `OrderedThrottleSession.next_seq`,
started at `i` with `bound - i` iterations of fuel left: return the first
`i` not in `seqs`, or `none` when the loop falls through (the
`raise RuntimeError("Unreachable")` line). -/
def scanFree (seqs : Finset ℕ) : ℕ → ℕ → Option ℕ
  | 0, _ => none
  | fuel + 1, i => if i ∈ seqs then scanFree seqs fuel (i + 1) else some i

/-- `OrderedThrottleSession.next_seq()`: `0` when `seqs` is empty, otherwise
the scan `for i in range(max(self.seqs) + 2)` for the first `i ∉ seqs`. -/
def nextSeq (seqs : Finset ℕ) : Option ℕ :=
  if h : seqs.Nonempty then scanFree seqs (seqs.max' h + 2) 0 else some 0

/-- The admission test of `OrderedThrottleSession.acquire(i)`: the negation
of the `while` condition
`self.thr.ntasks_in_window() >= self.thr.req_per_window or self.next_seq() != i`,
i.e. the loop proceeds exactly when the live count is strictly below the
effective capacity and `i` is the next sequence number. -/
def admissionTest (th : Throttler) (seqs : Finset ℕ) (i : ℕ) : Bool :=
  decide ((th.ntasks_in_window : ℤ) < th.req_per_window) && decide (nextSeq seqs = some i)

/-- The poll loop of `acquire(i)`: test the `while` condition on the current
state; on failure sleep, then `flush()` at the next clock reading and retry.
`ts` is the list of clock readings of the successive `flush()` calls;
`none` means the retry budget `ts` was exhausted with the test still
failing (the real loop would keep polling). -/
def acquireWait (seqs : Finset ℕ) (i : ℕ) : Throttler → List ℚ → Option Throttler
  | th, [] => if admissionTest th seqs i then some th else none
  | th, t :: ts => if admissionTest th seqs i then some th else acquireWait seqs i (th.flush t) ts

/-- The `cancel` closure yielded by `acquire(i)`: `self.seqs.remove(i)`,
which raises `KeyError` (here `none`) when `i` is not claimed. -/
def cancelSeq (seqs : Finset ℕ) (i : ℕ) : Option (Finset ℕ) :=
  if i ∈ seqs then some (seqs.erase i) else none

/-! ### Helper lemmas about the flush loop -/

lemma mem_flushLog_le (w now : ℚ) (l : List ℚ) (hs : List.Sorted (· ≤ ·) l) :
    ∀ x ∈ flushLog w now l, now - x ≤ w := by
  induction l with
  | nil => intro x hx; simp [flushLog] at hx
  | cons a rest ih =>
    rw [List.sorted_cons] at hs
    obtain ⟨ha, hrest⟩ := hs
    intro x hx
    by_cases h : now - a > w
    · rw [flushLog, if_pos h] at hx
      exact ih hrest x hx
    · rw [flushLog, if_neg h] at hx
      rcases List.mem_cons.mp hx with rfl | hx
      · linarith [not_lt.mp h]
      · have := ha x hx
        have := not_lt.mp h
        linarith

lemma flushLog_dropped (w now : ℚ) (l : List ℚ) : ∃ p, l = p ++ flushLog w now l := by
  induction l with
  | nil => exact ⟨[], rfl⟩
  | cons a rest ih =>
    by_cases h : now - a > w
    · obtain ⟨p, hp⟩ := ih
      refine ⟨a :: p, ?_⟩
      rw [flushLog, if_pos h, List.cons_append, ← hp]
    · exact ⟨[], by rw [flushLog, if_neg h, List.nil_append]⟩

lemma flushLog_eq_filter (w now : ℚ) (l : List ℚ) (hs : List.Sorted (· ≤ ·) l) :
    flushLog w now l = l.filter (fun t => decide (now - t ≤ w)) := by
  induction l with
  | nil => rfl
  | cons a rest ih =>
    rw [List.sorted_cons] at hs
    obtain ⟨ha, hrest⟩ := hs
    by_cases h : now - a > w
    · rw [flushLog, if_pos h, ih hrest, List.filter_cons]
      have : ¬ (now - a ≤ w) := not_le.mpr h
      simp [this]
    · have hle : now - a ≤ w := not_lt.mp h
      rw [flushLog, if_neg h, List.filter_cons]
      have hall : ∀ x ∈ rest, decide (now - x ≤ w) = true := by
        intro x hx
        have := ha x hx
        exact decide_eq_true (by linarith)
      rw [List.filter_eq_self.mpr hall]
      simp [hle]

lemma flushLog_idem (w now : ℚ) (l : List ℚ) :
    flushLog w now (flushLog w now l) = flushLog w now l := by
  induction l with
  | nil => rfl
  | cons a rest ih =>
    by_cases h : now - a > w
    · rw [flushLog, if_pos h, ih]
    · rw [flushLog, if_neg h, flushLog, if_neg h]

/-! ### Helper lemmas about the next_seq scan -/

lemma scanFree_some (s : Finset ℕ) :
    ∀ fuel i m, scanFree s fuel i = some m →
      m ∉ s ∧ i ≤ m ∧ ∀ j, i ≤ j → j < m → j ∈ s := by
  intro fuel
  induction fuel with
  | zero => intro i m h; simp [scanFree] at h
  | succ f ih =>
    intro i m h
    rw [scanFree] at h
    by_cases hi : i ∈ s
    · rw [if_pos hi] at h
      obtain ⟨h1, h2, h3⟩ := ih (i + 1) m h
      refine ⟨h1, by omega, fun j hij hjm => ?_⟩
      rcases Nat.eq_or_lt_of_le hij with rfl | hlt
      · exact hi
      · exact h3 j hlt hjm
    · rw [if_neg hi] at h
      obtain rfl := Option.some.inj h
      exact ⟨hi, le_refl _, fun j hij hjm => absurd hjm (by omega)⟩

lemma scanFree_isSome (s : Finset ℕ) :
    ∀ fuel i m, i ≤ m → m < i + fuel → m ∉ s → (scanFree s fuel i).isSome = true := by
  intro fuel
  induction fuel with
  | zero => intro i m h1 h2 _; omega
  | succ f ih =>
    intro i m h1 h2 hm
    rw [scanFree]
    by_cases hi : i ∈ s
    · rw [if_pos hi]
      have hne : i ≠ m := fun e => hm (e ▸ hi)
      exact ih (i + 1) m (by omega) (by omega) hm
    · rw [if_neg hi]; rfl

lemma nextSeq_spec (s : Finset ℕ) :
    ∃ m, nextSeq s = some m ∧ m ∉ s ∧ ∀ j, j < m → j ∈ s := by
  unfold nextSeq
  by_cases h : s.Nonempty
  · rw [dif_pos h]
    have hmax : s.max' h + 1 ∉ s := by
      intro hm
      have := Finset.le_max' s _ hm
      omega
    have hsome := scanFree_isSome s (s.max' h + 2) 0 (s.max' h + 1) (Nat.zero_le _) (by omega) hmax
    obtain ⟨m, hm⟩ := Option.isSome_iff_exists.mp hsome
    obtain ⟨h1, _, h3⟩ := scanFree_some s (s.max' h + 2) 0 m hm
    exact ⟨m, hm, h1, fun j hj => h3 j (Nat.zero_le _) hj⟩
  · rw [dif_neg h]
    rw [Finset.not_nonempty_iff_eq_empty] at h
    exact ⟨0, rfl, by simp [h], fun j hj => absurd hj (Nat.not_lt_zero j)⟩

lemma nextSeq_eq (s : Finset ℕ) (m : ℕ) (hm : m ∉ s) (hb : ∀ j, j < m → j ∈ s) :
    nextSeq s = some m := by
  obtain ⟨m', h1, h2, h3⟩ := nextSeq_spec s
  have he : m' = m := by
    rcases lt_trichotomy m' m with hlt | heq | hgt
    · exact absurd (hb m' hlt) h2
    · exact heq
    · exact absurd (h3 m hgt) hm
  rw [h1, he]

/-! ### Claim theorems -/

/-- C6: for every finite set of pending sequence numbers, `next_seq()`
returns the smallest non-negative integer not present in the set (`0` when
the set is empty), the bounded scan always finds it, and the
`RuntimeError("Unreachable")` branch (the `none` result) is never taken. -/
theorem next_seq_is_mex (s : Finset ℕ) :
    ∃ m, nextSeq s = some m ∧ m ∉ s ∧ (∀ j, j < m → j ∈ s) ∧
      (s = ∅ → m = 0) ∧ nextSeq s ≠ none := by
  obtain ⟨m, h1, h2, h3⟩ := nextSeq_spec s
  refine ⟨m, h1, h2, h3, fun hse => ?_, by rw [h1]; exact Option.some_ne_none m⟩
  have h0 : nextSeq (∅ : Finset ℕ) = some 0 := by decide
  rw [hse, h0] at h1
  exact (Option.some.inj h1).symm

theorem next_seq_is_mex_w :
    ∃ m, nextSeq ({0, 1, 3} : Finset ℕ) = some m ∧ m ∉ ({0, 1, 3} : Finset ℕ) ∧
      (∀ j, j < m → j ∈ ({0, 1, 3} : Finset ℕ)) ∧
      (({0, 1, 3} : Finset ℕ) = ∅ → m = 0) ∧ nextSeq ({0, 1, 3} : Finset ℕ) ≠ none :=
  next_seq_is_mex {0, 1, 3}

/-- C1: the admission test of `acquire(i)` can pass only when `i` is the
next sequence number, i.e. every smaller sequence number is currently
claimed (and `i` itself is not); and once `i` is claimed, any later
admission through the same gate carries a strictly larger sequence number,
so admissions occur in ascending sequence-number order. -/
theorem acquire_admits_in_order (th : Throttler) (s : Finset ℕ) (i : ℕ)
    (h : admissionTest th s i = true) :
    (∀ j, j < i → j ∈ s) ∧ i ∉ s ∧
      ∀ th' i', admissionTest th' (insert i s) i' = true → i < i' := by
  have hseq : nextSeq s = some i :=
    of_decide_eq_true ((Bool.and_eq_true _ _).mp h).2
  obtain ⟨m, h1, h2, h3⟩ := nextSeq_spec s
  rw [h1] at hseq
  obtain rfl := Option.some.inj hseq
  refine ⟨h3, h2, ?_⟩
  intro th' i' h'
  have hseq' : nextSeq (insert m s) = some i' :=
    of_decide_eq_true ((Bool.and_eq_true _ _).mp h').2
  obtain ⟨m', g1, g2, g3⟩ := nextSeq_spec (insert m s)
  rw [g1] at hseq'
  obtain rfl := Option.some.inj hseq'
  by_contra hle
  push_neg at hle
  rcases Nat.eq_or_lt_of_le hle with rfl | hlt
  · exact g2 (Finset.mem_insert_self _ _)
  · exact g2 (Finset.mem_insert_of_mem (h3 _ hlt))

theorem acquire_admits_in_order_w :
    (∀ j, j < 1 → j ∈ ({0} : Finset ℕ)) ∧ 1 ∉ ({0} : Finset ℕ) ∧
      ∀ th' i', admissionTest th' (insert 1 {0}) i' = true → 1 < i' :=
  acquire_admits_in_order (Throttler.init 5 1 (1/100)) {0} 1 (by decide)

/-- C7: cancelling an admitted acquisition for sequence number `i` removes
`i` from the pending set, so `next_seq()` returns `i` again (a later
`acquire(i)` can pass the ordering test), and the release then calls
`finish` with `cancel = true`, which removes the in-flight id without
appending any completion timestamp. -/
theorem cancel_frees_slot (th : Throttler) (s : Finset ℕ) (i task_id : ℕ) (now : ℚ)
    (hi : i ∈ s) (hb : ∀ j, j < i → j ∈ s) (hid : task_id ∈ th._running_tasks) :
    cancelSeq s i = some (s.erase i) ∧ i ∉ s.erase i ∧ nextSeq (s.erase i) = some i ∧
      ∃ th', th.finish now task_id true = some th' ∧
        th'._task_logs = th._task_logs ∧
        th'._running_tasks = th._running_tasks.erase task_id := by
  refine ⟨if_pos hi, Finset.not_mem_erase _ _, ?_, ?_⟩
  · refine nextSeq_eq _ _ (Finset.not_mem_erase _ _) fun j hj => ?_
    exact Finset.mem_erase.mpr ⟨Nat.ne_of_lt hj, hb j hj⟩
  · refine ⟨{ th with _running_tasks := th._running_tasks.erase task_id }, ?_, rfl, rfl⟩
    unfold Throttler.finish
    rw [if_pos hid]
    rfl

theorem cancel_frees_slot_w :
    cancelSeq {0, 1, 2} 2 = some (({0, 1, 2} : Finset ℕ).erase 2) ∧
      2 ∉ (({0, 1, 2} : Finset ℕ).erase 2) ∧
      nextSeq (({0, 1, 2} : Finset ℕ).erase 2) = some 2 ∧
      ∃ th', Throttler.finish ⟨4, 1, 1/100, 0, [3], {7}⟩ 5 7 true = some th' ∧
        th'._task_logs = (⟨4, 1, 1/100, 0, [3], {7}⟩ : Throttler)._task_logs ∧
        th'._running_tasks = (⟨4, 1, 1/100, 0, [3], {7}⟩ : Throttler)._running_tasks.erase 7 :=
  cancel_frees_slot ⟨4, 1, 1/100, 0, [3], {7}⟩ {0, 1, 2} 2 7 5 (by decide)
    (by decide) (by decide)

/-- C9: `finish` on an identifier not currently in flight, and a token's
cancel after its sequence number was already removed (a double release),
both fail loudly (the raised `KeyError`, embedded as `none`): no successor
state is produced, so no accounting state is silently altered. -/
theorem double_release_fails (th : Throttler) (s : Finset ℕ) (task_id i : ℕ)
    (now : ℚ) (c : Bool)
    (hid : task_id ∉ th._running_tasks) (hi : i ∉ s) :
    th.finish now task_id c = none ∧ cancelSeq s i = none := by
  constructor
  · unfold Throttler.finish
    rw [if_neg hid]
  · unfold cancelSeq
    rw [if_neg hi]

theorem double_release_fails_w :
    (Throttler.init 3 1 (1/100)).finish 2 0 false = none ∧ cancelSeq {1} 0 = none :=
  double_release_fails (Throttler.init 3 1 (1/100)) {1} 0 0 2 false (by decide) (by decide)

/-- `backoff()` iterated `k` times increments `_backoff_n` by `k` and
leaves the configured capacity untouched. -/
lemma backoff_iter (th : Throttler) (k : ℕ) :
    (Throttler.backoff^[k] th)._backoff_n = th._backoff_n + k ∧
      (Throttler.backoff^[k] th)._req_per_window = th._req_per_window := by
  induction k with
  | zero => simp
  | succ n ih =>
    rw [Function.iterate_succ_apply']
    refine ⟨?_, ?_⟩
    · show (Throttler.backoff^[n] th)._backoff_n + 1 = th._backoff_n + (n + 1)
      rw [ih.1]
      omega
    · show (Throttler.backoff^[n] th)._req_per_window = th._req_per_window
      exact ih.2

/-- C2: for a throttler constructed with capacity `c ≥ 1`, after exactly
`k` calls to `backoff()` the `req_per_window` property equals
`max (c - 2 ^ k) 1`; it is non-increasing in `k` and never below `1`. -/
theorem backoff_effective_capacity (c : ℤ) (w r : ℚ) (k : ℕ) (_hc : 1 ≤ c) :
    (Throttler.backoff^[k] (Throttler.init c w r)).req_per_window = max (c - 2 ^ k) 1 ∧
    (Throttler.backoff^[k + 1] (Throttler.init c w r)).req_per_window ≤
      (Throttler.backoff^[k] (Throttler.init c w r)).req_per_window ∧
    1 ≤ (Throttler.backoff^[k] (Throttler.init c w r)).req_per_window := by
  have key : ∀ n : ℕ,
      (Throttler.backoff^[n] (Throttler.init c w r)).req_per_window = max (c - 2 ^ n) 1 := by
    intro n
    obtain ⟨h1, h2⟩ := backoff_iter (Throttler.init c w r) n
    rw [Throttler.req_per_window, h1, h2]
    simp [Throttler.init]
  refine ⟨key k, ?_, ?_⟩
  · rw [key k, key (k + 1)]
    refine max_le_max ?_ (le_refl 1)
    refine sub_le_sub_left ?_ c
    exact pow_le_pow_right₀ (by norm_num) (Nat.le_succ k)
  · rw [key k]
    exact le_max_right _ _

theorem backoff_effective_capacity_w :
    (Throttler.backoff^[1] (Throttler.init 5 1 (1/100))).req_per_window = max (5 - 2 ^ 1) 1 ∧
    (Throttler.backoff^[2] (Throttler.init 5 1 (1/100))).req_per_window ≤
      (Throttler.backoff^[1] (Throttler.init 5 1 (1/100))).req_per_window ∧
    1 ≤ (Throttler.backoff^[1] (Throttler.init 5 1 (1/100))).req_per_window :=
  backoff_effective_capacity 5 1 (1/100) 1 (by norm_num)

/-- C5 counterexample: the constructor accepts a zero capacity and a zero
window without any error — the stored fields are the invalid values
themselves, and the only "clamping" happens later, in the
`req_per_window` property. -/
theorem init_accepts_nonpositive :
    (Throttler.init 0 0 (1/100))._req_per_window = 0 ∧
    (Throttler.init 0 0 (1/100))._window = 0 ∧
    (Throttler.init 0 0 (1/100)).req_per_window = 1 := by
  refine ⟨rfl, rfl, ?_⟩
  norm_num [Throttler.init, Throttler.req_per_window]

/-- C5 amended: construction performs no validation at all — every
capacity/window/retry value, non-positive ones included, is stored
unchanged and no error is raised; the effective capacity is clamped to at
least `1` only when the `req_per_window` property is read. -/
theorem init_no_validation (c : ℤ) (w r : ℚ) :
    (Throttler.init c w r)._req_per_window = c ∧
    (Throttler.init c w r)._window = w ∧
    (Throttler.init c w r)._retry_interval = r ∧
    1 ≤ (Throttler.init c w r).req_per_window :=
  ⟨rfl, rfl, rfl, le_max_right _ _⟩

/-- The state of claim C3's scenario: a fresh throttler with capacity `2`,
window `1.0`, no backoff, and one operation (`A`, in-flight id `0`)
already admitted. -/
def thB : Throttler := (Throttler.init 2 1 (1/100)).running 0

/-- C3 counterexample: with capacity `2` and no backoff the limit used by
`acquire` is `max (2 - 2 ^ 0) 1 = 1`, not the configured capacity `2`, so
with `A` in flight the live count `1` is not strictly below the limit and
`B`'s admission test fails. -/
theorem capacity_two_limit_is_one :
    thB.req_per_window = 1 ∧ thB.ntasks_in_window = 1 ∧
      ¬ ((thB.ntasks_in_window : ℤ) < thB.req_per_window) := by decide

/-- C3 amended: in the scenario (capacity `2`, window `1.0`, no backoff,
`A` in flight), the admission limit is `max (2 - 2 ^ 0) 1 = 1`, and `B`'s
admission test fails, so `B` must wait. -/
theorem capacity_two_waiter_blocked :
    thB.req_per_window = max (2 - 2 ^ 0) 1 ∧ admissionTest thB ∅ 0 = false := by decide

/-- A reachable throttler state: capacity `2`, window `1.0`, one completion
logged at time `0`, nothing in flight. -/
def thC4 : Throttler := ⟨2, 1, 1/100, 0, [0], ∅⟩

/-- C4 counterexample: `ntasks_in_window()` never prunes — at a query time
`2`, strictly later than `0 + 1` (entry time + window), the stale entry is
still counted; only an explicit `flush` call removes it. -/
theorem ntasks_counts_stale_entry :
    thC4.ntasks_in_window = 1 ∧ (thC4.flush 2).ntasks_in_window = 0 := by
  refine ⟨by decide, ?_⟩
  norm_num [thC4, Throttler.flush, Throttler.ntasks_in_window, flushLog]

/-- C4 amended: an entry logged at time `t` is removed by any `flush(now)`
executed at `now > t + window` (given the chronologically sorted log), so
it is excluded from every count taken after that flush; `ntasks_in_window`
itself performs no pruning — pruning happens only in the explicit `flush`
calls of the acquire poll loop. -/
theorem flush_excludes_expired (th : Throttler) (now t : ℚ)
    (hs : List.Sorted (· ≤ ·) th._task_logs) (ht : th._window < now - t) :
    t ∉ (th.flush now)._task_logs := by
  intro hmem
  have := mem_flushLog_le th._window now th._task_logs hs t hmem
  linarith

theorem flush_excludes_expired_w : (0 : ℚ) ∉ (thC4.flush 10)._task_logs :=
  flush_excludes_expired thC4 10 0 (by simp [thC4]) (by norm_num [thC4])

/-- A reachable throttler state: capacity `3` (effective capacity
`max (3 - 2 ^ 0) 1 = 2`), window `1.0`, two completions logged at time
`0`, nothing in flight. -/
def th8 : Throttler := ⟨3, 1, 1/100, 0, [0, 0], ∅⟩

/-- C8 counterexample: the `while` condition of `acquire` is evaluated
before any `flush()` on the first iteration.  At clock time `10` both
logged entries are stale, yet the first admission test runs on the
unpruned log and fails, while the test the claim describes (pruned first)
would pass; with no retry the loop has not admitted. -/
theorem first_test_unpruned :
    admissionTest th8 ∅ 0 = false ∧ admissionTest (th8.flush 10) ∅ 0 = true ∧
      acquireWait ∅ 0 th8 [] = none := by
  have hf : th8.flush 10 = ⟨3, 1, 1/100, 0, [], ∅⟩ := by
    norm_num [th8, Throttler.flush, flushLog]
  exact ⟨by decide, by rw [hf]; decide, by decide⟩

/-- C8 amended: the poll loop tests the admission condition on the current
state — the first evaluation on the unpruned log — and only when the test
fails does it suspend and then prune before re-testing; an admission is
produced only in a state satisfying the test, and that state is the
initial state flushed at the clock readings of the performed retries. -/
theorem acquire_poll_loop_spec (s : Finset ℕ) (i : ℕ) (th : Throttler) (ts : List ℚ) :
    (admissionTest th s i = true → acquireWait s i th ts = some th) ∧
    (∀ t ts', admissionTest th s i = false →
        acquireWait s i th (t :: ts') = acquireWait s i (th.flush t) ts') ∧
    (∀ th', acquireWait s i th ts = some th' →
        admissionTest th' s i = true ∧
          ∃ p q, p ++ q = ts ∧ th' = p.foldl Throttler.flush th) := by
  refine ⟨?_, ?_, ?_⟩
  · intro h
    cases ts <;> simp [acquireWait, h]
  · intro t ts' h
    simp [acquireWait, h]
  · induction ts generalizing th with
    | nil =>
      intro th' h
      rw [acquireWait] at h
      by_cases ha : admissionTest th s i = true
      · rw [if_pos ha] at h
        obtain rfl := Option.some.inj h
        exact ⟨ha, [], [], rfl, rfl⟩
      · rw [if_neg ha] at h
        exact absurd h (by simp)
    | cons t ts' ih =>
      intro th' h
      rw [acquireWait] at h
      by_cases ha : admissionTest th s i = true
      · rw [if_pos ha] at h
        obtain rfl := Option.some.inj h
        exact ⟨ha, [], t :: ts', rfl, rfl⟩
      · rw [if_neg ha] at h
        obtain ⟨hadm, p, q, hpq, hfold⟩ := ih (th.flush t) th' h
        refine ⟨hadm, t :: p, q, ?_, ?_⟩
        · rw [List.cons_append, hpq]
        · simpa [List.foldl_cons] using hfold

theorem acquire_poll_loop_spec_w :
    acquireWait ∅ 0 (Throttler.init 5 1 (1/100)) [] = some (Throttler.init 5 1 (1/100)) :=
  (acquire_poll_loop_spec ∅ 0 (Throttler.init 5 1 (1/100)) []).1 (by decide)

/-- C10: with a monotone clock (`now` at least every logged timestamp),
`finish` appends `now` at the tail and keeps the completion log sorted;
`flush(now)` removes only entries from the front; under sortedness a
single `flush(now)` removes exactly the entries whose age exceeds the
window; and `flush` is idempotent at a fixed `now`. -/
theorem log_sorted_invariant (th : Throttler) (now : ℚ) (task_id : ℕ)
    (hs : List.Sorted (· ≤ ·) th._task_logs)
    (hm : ∀ x ∈ th._task_logs, x ≤ now)
    (hid : task_id ∈ th._running_tasks) :
    (∀ th', th.finish now task_id false = some th' →
        th'._task_logs = th._task_logs ++ [now] ∧ List.Sorted (· ≤ ·) th'._task_logs) ∧
    (∃ p, th._task_logs = p ++ (th.flush now)._task_logs) ∧
    (th.flush now)._task_logs = th._task_logs.filter (fun t => decide (now - t ≤ th._window)) ∧
    (th.flush now).flush now = th.flush now := by
  refine ⟨?_, ?_, ?_, ?_⟩
  · intro th' h
    unfold Throttler.finish at h
    rw [if_pos hid] at h
    obtain rfl := Option.some.inj h
    refine ⟨rfl, ?_⟩
    show List.Sorted (· ≤ ·) (th._task_logs ++ [now])
    refine List.pairwise_append.mpr ⟨hs, List.sorted_singleton _, ?_⟩
    intro x hx y hy
    rw [List.mem_singleton] at hy
    subst hy
    exact hm x hx
  · exact flushLog_dropped _ _ _
  · exact flushLog_eq_filter th._window now th._task_logs hs
  · show ({ th with _task_logs := _ } : Throttler) = _
    simp [Throttler.flush, flushLog_idem]

/-- A reachable throttler state for the C10 witness: completions at times
`0` and `2`, one task in flight. -/
def th10 : Throttler := ⟨3, 1, 1/100, 0, [0, 2], {5}⟩

theorem log_sorted_invariant_w :
    (∀ th', th10.finish 2 5 false = some th' →
        th'._task_logs = th10._task_logs ++ [2] ∧ List.Sorted (· ≤ ·) th'._task_logs) ∧
    (∃ p, th10._task_logs = p ++ (th10.flush 2)._task_logs) ∧
    (th10.flush 2)._task_logs = th10._task_logs.filter (fun t => decide (2 - t ≤ th10._window)) ∧
    (th10.flush 2).flush 2 = th10.flush 2 :=
  log_sorted_invariant th10 2 5 (by norm_num [th10, List.sorted_cons])
    (by norm_num [th10]) (by decide)
